import Mathlib

/-!
Verification of the cluster-topology cache and failover-routing layer of the
pysolr library (`ZooKeeper.getHosts` / `getAliasHosts` / `getRandomURL` /
`getLeaderURL`, and `SolrCloud._send_request` / `SolrCloud._update`).

The Python data structures (JSON cluster state) are embedded as typed records:
a replica has a state string, an optional leader flag and a base URL; a shard
has a state string and a replica map; a collection is a shard map; the store
holds the collection map and the alias map.  Python dicts become association
lists iterated in insertion order; `random.choice` becomes an arbitrary index
supplied by the environment; exceptions become `Except` values.
-/

/-- One replica entry of the cluster state: `{state, leader, base_url}`. -/
structure Replica where
  state : String
  leader : Option String
  base_url : String
deriving Repr, DecidableEq

/-- One shard entry: `{state, replicas}`, replicas keyed by name. -/
structure Shard where
  state : String
  replicas : List (String × Replica)
deriving Repr, DecidableEq

/-- One collection entry: its shard map, keyed by shard name. -/
structure SolrCollection where
  shards : List (String × Shard)
deriving Repr, DecidableEq

/-- The in-memory ZooKeeper cluster-state snapshot used by resolution:
the collection map and the alias map (alias name to comma-joined targets). -/
structure ZK where
  collections : List (String × SolrCollection)
  aliases : List (String × String)
deriving Repr, DecidableEq

/-- Association-list lookup, modelling Python dict access (keys are unique in
dicts produced by JSON parsing; lookup returns the first binding). -/
def alookup {α : Type} : List (String × α) → String → Option α
  | [], _ => none
  | (k, v) :: rest, key => if k = key then some v else alookup rest key

/-- Model of `if base_url not in hosts: hosts.append(base_url)`. -/
def addHost (hosts : List String) (h : String) : List String :=
  if h ∈ hosts then hosts else hosts ++ [h]

/-- Model of the inner loop of `getHosts` over one shard's replicas:
collect base URLs of active replicas (leaders only when `ol` is set),
deduplicating against the accumulator. -/
def shardHosts (ol : Bool) (hosts : List String) (sh : Shard) : List String :=
  if sh.state = "active" then
    sh.replicas.foldl
      (fun acc rp =>
        if rp.2.state = "active" ∧ (ol = false ∨ rp.2.leader = some "true") then
          addHost acc rp.2.base_url
        else acc)
      hosts
  else hosts

/-- Model of the non-alias branch of `ZooKeeper.getHosts`: walk the shard map,
keeping active shards, and collect qualifying replica base URLs in order. -/
def collectHosts (coll : SolrCollection) (ol : Bool) : List String :=
  coll.shards.foldl (fun hosts sh => shardHosts ol hosts sh.2) []

/-- Model of the dedup-merge loop of `getAliasHosts`:
`for host in new: if host not in hosts: hosts.append(host)`. -/
def addNew (hosts newHosts : List String) : List String :=
  newHosts.foldl addHost hosts

/-- Names that are keys of the alias map. -/
def aliasKeys (z : ZK) : List String := z.aliases.map Prod.fst

/-- Number of alias names not yet visited: the termination measure of the
recursive alias resolution. -/
def unvisited (z : ZK) (seen : List String) : Nat :=
  ((aliasKeys z).filter (fun a => decide (¬ a ∈ seen))).length

theorem alookup_mem_keys {α : Type} {l : List (String × α)} {k : String} {v : α}
    (h : alookup l k = some v) : k ∈ l.map Prod.fst := by
  induction l with
  | nil => simp [alookup] at h
  | cons kv rest ih =>
    by_cases hk : kv.1 = k
    · simp [hk]
    · simp only [alookup, hk, if_false] at h
      simp [ih h]

theorem filter_not_mem_sublist (l : List String) {s t : List String}
    (h : s ⊆ t) :
    List.Sublist (l.filter (fun a => decide (¬ a ∈ t)))
      (l.filter (fun a => decide (¬ a ∈ s))) :=
  List.monotone_filter_right l (fun a ha => by
    simp only [decide_eq_true_eq] at ha ⊢
    exact fun hmem => ha (h hmem))

theorem filter_not_mem_length_mono (l : List String) {s t : List String}
    (h : s ⊆ t) :
    (l.filter (fun a => decide (¬ a ∈ t))).length ≤
      (l.filter (fun a => decide (¬ a ∈ s))).length :=
  (filter_not_mem_sublist l h).length_le

theorem filter_not_mem_length_append_lt (l : List String) {s : List String}
    {a : String} (hal : a ∈ l) (has : ¬ a ∈ s) :
    (l.filter (fun x => decide (¬ x ∈ s ++ [a]))).length <
      (l.filter (fun x => decide (¬ x ∈ s))).length := by
  have hsub := filter_not_mem_sublist l (List.subset_append_left s [a])
  refine Nat.lt_of_le_of_ne hsub.length_le (fun heq => ?_)
  have heqs := hsub.eq_of_length heq
  have hmem : a ∈ l.filter (fun x => decide (¬ x ∈ s)) := by
    simp only [List.mem_filter, decide_eq_true_eq]
    exact ⟨hal, has⟩
  rw [← heqs] at hmem
  simp only [List.mem_filter, decide_eq_true_eq] at hmem
  exact hmem.2 (by simp)

theorem unvisited_mono {z : ZK} {s t : List String} (h : s ⊆ t) :
    unvisited z t ≤ unvisited z s :=
  filter_not_mem_length_mono (aliasKeys z) h

theorem unvisited_append_lt {z : ZK} {seen : List String} {a : String}
    (ha : a ∈ aliasKeys z) (hs : ¬ a ∈ seen) :
    unvisited z (seen ++ [a]) < unvisited z seen :=
  filter_not_mem_length_append_lt (aliasKeys z) ha hs

/-- Split a character list at every comma, keeping empty pieces: the
character-level semantics of Python `str.split(",")`. -/
def commaSplitChars : List Char → List (List Char)
  | [] => [[]]
  | c :: rest =>
    match commaSplitChars rest with
    | [] => [[]]
    | h :: t => if c = ',' then [] :: h :: t else (c :: h) :: t

/-- Model of Python `str.split(",")` as used on alias target lists:
split on every comma, keeping empty pieces (`"".split(",") == [""]`). -/
def commaSplit (s : String) : List String :=
  (commaSplitChars s.data).map String.mk

/-- Result type of the recursive resolution: an `Except` for the Python
exceptions (`SolrError` carrying its message, and `KeyError` for a raw dict
miss), paired with the host list and the final visited-alias list.  The
visited list is returned because Python threads one mutable list through the
whole recursion (`seen_aliases.append` mutates the caller's list); the subset
proof on it drives the termination argument. -/
abbrev HostsRes (seen : List String) :=
  Except String (List String × { s : List String // seen ⊆ s })

mutual

/-- Model of `ZooKeeper.getHosts`: alias branch first, then collection lookup
(raising `SolrError "Unknown collection: …"` on a miss), then the
active-shard / active-replica / leader filter with deduplication. -/
def getHostsAux (z : ZK) (collname : String) (ol : Bool) (seen : List String) :
    HostsRes seen :=
  if (alookup z.aliases collname).isSome then getAliasHostsAux z collname ol seen
  else
    match alookup z.collections collname with
    | none => .error ("Unknown collection: " ++ collname)
    | some coll => .ok (collectHosts coll ol, ⟨seen, fun _ h => h⟩)
termination_by (unvisited z seen, 0, 1)
decreasing_by
  simp_wf
  exact Prod.Lex.right _ (Prod.Lex.right _ Nat.zero_lt_one)

/-- Model of `ZooKeeper.getAliasHosts`: return `[]` for a name already on the
visited list (cycle break), otherwise append the name to the visited list,
split the alias target on commas and resolve each target in order, merging
with deduplication. -/
def getAliasHostsAux (z : ZK) (collname : String) (ol : Bool)
    (seen : List String) : HostsRes seen :=
  if hmem : collname ∈ seen then .ok ([], ⟨seen, fun _ h => h⟩)
  else
    if halias : (alookup z.aliases collname).isSome then
      match aliasLoopAux z
          (commaSplit ((alookup z.aliases collname).get halias)) ol
          (seen ++ [collname]) [] with
      | .error e => .error e
      | .ok (hosts, ⟨s, hs⟩) =>
        .ok (hosts, ⟨s, fun a ha => hs (List.mem_append_left _ ha)⟩)
    else .error ("KeyError: " ++ collname)
termination_by (unvisited z seen, 0, 0)
decreasing_by
  simp_wf
  obtain ⟨target, hT⟩ := Option.isSome_iff_exists.mp halias
  exact Prod.Lex.left _ _ (unvisited_append_lt (alookup_mem_keys hT) hmem)

/-- Model of the target loop of `getAliasHosts`: resolve each target with the
shared visited list and fold the results into the accumulator, skipping hosts
already present. -/
def aliasLoopAux (z : ZK) (targets : List String) (ol : Bool)
    (seen : List String) (hosts : List String) : HostsRes seen :=
  match targets with
  | [] => .ok (hosts, ⟨seen, fun _ h => h⟩)
  | t :: rest =>
    match getHostsAux z t ol seen with
    | .error e => .error e
    | .ok (h, ⟨seen2, hsub⟩) =>
      match aliasLoopAux z rest ol seen2 (addNew hosts h) with
      | .error e => .error e
      | .ok (hosts2, ⟨s, hs⟩) => .ok (hosts2, ⟨s, fun a ha => hs (hsub ha)⟩)
termination_by (unvisited z seen, targets.length + 1, 2)
decreasing_by
  · simp_wf
    exact Prod.Lex.right _ (Prod.Lex.left _ _ (by omega))
  · simp_wf
    rcases lt_or_eq_of_le (unvisited_mono hsub) with hlt | heq
    · exact Prod.Lex.left _ _ hlt
    · rw [heq]
      exact Prod.Lex.right _ (Prod.Lex.left _ _ (by omega))

end

/-- Plain-pair view of `getHostsAux` (hosts, final visited list), dropping the
termination-only subset proof. -/
def getHostsS (z : ZK) (c : String) (ol : Bool) (seen : List String) :
    Except String (List String × List String) :=
  match getHostsAux z c ol seen with
  | .error e => .error e
  | .ok (h, s) => .ok (h, s.val)

/-- Plain-pair view of `getAliasHostsAux`. -/
def getAliasHostsS (z : ZK) (c : String) (ol : Bool) (seen : List String) :
    Except String (List String × List String) :=
  match getAliasHostsAux z c ol seen with
  | .error e => .error e
  | .ok (h, s) => .ok (h, s.val)

/-- Plain-pair view of `aliasLoopAux`. -/
def aliasLoopS (z : ZK) (targets : List String) (ol : Bool)
    (seen : List String) (hosts : List String) :
    Except String (List String × List String) :=
  match aliasLoopAux z targets ol seen hosts with
  | .error e => .error e
  | .ok (h, s) => .ok (h, s.val)

theorem getHostsS_alias {z : ZK} {c : String} {t : String} (ol : Bool)
    (seen : List String) (h : alookup z.aliases c = some t) :
    getHostsS z c ol seen = getAliasHostsS z c ol seen := by
  unfold getHostsS getAliasHostsS getHostsAux
  rw [if_pos (by rw [h]; rfl)]

theorem getHostsS_direct {z : ZK} {c : String} {coll : SolrCollection} (ol : Bool)
    (seen : List String) (h1 : alookup z.aliases c = none)
    (h2 : alookup z.collections c = some coll) :
    getHostsS z c ol seen = .ok (collectHosts coll ol, seen) := by
  unfold getHostsS getHostsAux
  rw [if_neg (by rw [h1]; simp), h2]

theorem getHostsS_unknown {z : ZK} {c : String} (ol : Bool)
    (seen : List String) (h1 : alookup z.aliases c = none)
    (h2 : alookup z.collections c = none) :
    getHostsS z c ol seen = .error ("Unknown collection: " ++ c) := by
  unfold getHostsS getHostsAux
  rw [if_neg (by rw [h1]; simp), h2]

theorem getAliasHostsS_seen {z : ZK} {c : String} (ol : Bool)
    {seen : List String} (h : c ∈ seen) :
    getAliasHostsS z c ol seen = .ok ([], seen) := by
  unfold getAliasHostsS getAliasHostsAux
  rw [dif_pos h]

theorem getAliasHostsS_go {z : ZK} {c : String} {t : String} (ol : Bool)
    {seen : List String} (hmem : ¬ c ∈ seen) (h : alookup z.aliases c = some t) :
    getAliasHostsS z c ol seen =
      aliasLoopS z (commaSplit t) ol (seen ++ [c]) [] := by
  unfold getAliasHostsS getAliasHostsAux aliasLoopS
  rw [dif_neg hmem, dif_pos (show (alookup z.aliases c).isSome by rw [h]; rfl)]
  simp only [h, Option.get_some]
  rcases hres : aliasLoopAux z (commaSplit t) ol (seen ++ [c]) [] with e | p
  · rfl
  · rcases p with ⟨h1, s, hs⟩
    rfl

theorem aliasLoopS_nil (z : ZK) (ol : Bool) (seen hosts : List String) :
    aliasLoopS z [] ol seen hosts = .ok (hosts, seen) := by
  unfold aliasLoopS aliasLoopAux
  rfl

theorem aliasLoopS_cons (z : ZK) (t : String) (rest : List String) (ol : Bool)
    (seen hosts : List String) :
    aliasLoopS z (t :: rest) ol seen hosts =
      match getHostsS z t ol seen with
      | .error e => .error e
      | .ok (h, seen2) => aliasLoopS z rest ol seen2 (addNew hosts h) := by
  unfold aliasLoopS getHostsS
  conv_lhs => rw [aliasLoopAux]
  rcases hres : getHostsAux z t ol seen with e | p
  · rfl
  · rcases p with ⟨h1, s, hs⟩
    simp only []
    rcases hres2 : aliasLoopAux z rest ol s (addNew hosts h1) with e2 | p2
    · rfl
    · rcases p2 with ⟨h2, s2, hs2⟩
      rfl

theorem getHostsS_seen_subset {z : ZK} {c : String} {ol : Bool}
    {seen hosts out : List String}
    (h : getHostsS z c ol seen = .ok (hosts, out)) : seen ⊆ out := by
  unfold getHostsS at h
  rcases hres : getHostsAux z c ol seen with e | p
  · rw [hres] at h
    exact absurd h (by simp)
  · rcases p with ⟨h1, s, hs⟩
    rw [hres] at h
    simp only [Except.ok.injEq, Prod.mk.injEq] at h
    rw [← h.2]
    exact hs

/-- Model of the public `ZooKeeper.getHosts` entry point (initial
`seen_aliases=None`), returning just the host list. -/
def getHosts (z : ZK) (collname : String) (ol : Bool) :
    Except String (List String) :=
  match getHostsS z collname ol [] with
  | .error e => .error e
  | .ok (hosts, _) => .ok hosts

/-- Model of the public alias branch `ZooKeeper.getAliasHosts` entered from
`getHosts` with `seen_aliases=None`. -/
def getAliasHosts (z : ZK) (collname : String) (ol : Bool) :
    Except String (List String) :=
  match getAliasHostsS z collname ol [] with
  | .error e => .error e
  | .ok (hosts, _) => .ok hosts

/-- Model of `ZooKeeper.getRandomURL`: resolve the host list, raise
`SolrError "ZooKeeper returned no active shards!"` when it is empty, else
return `random.choice(hosts) + "/" + collname`; the random draw is modelled
by an arbitrary index `pick` reduced modulo the list length. -/
def getRandomURL (z : ZK) (collname : String) (ol : Bool) (pick : Nat) :
    Except String String :=
  match getHosts z collname ol with
  | .error e => .error e
  | .ok hosts =>
    if hosts = [] then .error "ZooKeeper returned no active shards!"
    else .ok (hosts.getD (pick % hosts.length) "" ++ "/" ++ collname)

/-- Model of `ZooKeeper.getLeaderURL`: `getRandomURL` with `only_leader=True`. -/
def getLeaderURL (z : ZK) (collname : String) (pick : Nat) :
    Except String String :=
  getRandomURL z collname true pick

/-- Replica filter of `getHosts`: the replica is active, and when
`only_leader` is set it carries the `leader="true"` flag. -/
def replicaQual (ol : Bool) (rp : Replica) : Prop :=
  rp.state = "active" ∧ (ol = false ∨ rp.leader = some "true")

instance (ol : Bool) (rp : Replica) : Decidable (replicaQual ol rp) := by
  unfold replicaQual; infer_instance

/-- The specification-side predicate: `x` is the base URL of a qualifying
replica inside an active shard of the collection. -/
def QualBase (coll : SolrCollection) (ol : Bool) (x : String) : Prop :=
  ∃ sh ∈ coll.shards, sh.2.state = "active" ∧
    ∃ rp ∈ sh.2.replicas, replicaQual ol rp.2 ∧ rp.2.base_url = x

instance (coll : SolrCollection) (ol : Bool) (x : String) :
    Decidable (QualBase coll ol x) := by
  unfold QualBase; infer_instance

theorem mem_addHost {l : List String} {h x : String} :
    x ∈ addHost l h ↔ x ∈ l ∨ x = h := by
  unfold addHost
  by_cases hm : h ∈ l
  · rw [if_pos hm]
    constructor
    · exact fun hx => Or.inl hx
    · rintro (hx | rfl)
      · exact hx
      · exact hm
  · rw [if_neg hm]
    simp

theorem addHost_nodup {l : List String} {h : String} (hl : l.Nodup) :
    (addHost l h).Nodup := by
  unfold addHost
  by_cases hm : h ∈ l
  · rwa [if_pos hm]
  · rw [if_neg hm, List.nodup_append]
    exact ⟨hl, List.nodup_singleton h,
      fun a ha hb => hm (by rwa [List.mem_singleton.mp hb] at ha)⟩

theorem mem_replicaFold {ol : Bool} (reps : List (String × Replica))
    (hosts : List String) (x : String) :
    x ∈ reps.foldl
        (fun acc rp =>
          if rp.2.state = "active" ∧ (ol = false ∨ rp.2.leader = some "true") then
            addHost acc rp.2.base_url
          else acc)
        hosts ↔
      x ∈ hosts ∨ ∃ rp ∈ reps, replicaQual ol rp.2 ∧ rp.2.base_url = x := by
  induction reps generalizing hosts with
  | nil => simp
  | cons rp rest ih =>
    simp only [List.foldl_cons]
    by_cases hq : rp.2.state = "active" ∧ (ol = false ∨ rp.2.leader = some "true")
    · rw [if_pos hq, ih, mem_addHost]
      constructor
      · rintro ((hx | rfl) | ⟨rp2, hm, hq2, hb⟩)
        · exact Or.inl hx
        · exact Or.inr ⟨rp, List.mem_cons_self _ _, hq, rfl⟩
        · exact Or.inr ⟨rp2, List.mem_cons_of_mem _ hm, hq2, hb⟩
      · rintro (hx | ⟨rp2, hm, hq2, hb⟩)
        · exact Or.inl (Or.inl hx)
        · rcases List.mem_cons.mp hm with rfl | hm2
          · exact Or.inl (Or.inr hb.symm)
          · exact Or.inr ⟨rp2, hm2, hq2, hb⟩
    · rw [if_neg hq, ih]
      constructor
      · rintro (hx | ⟨rp2, hm, hq2, hb⟩)
        · exact Or.inl hx
        · exact Or.inr ⟨rp2, List.mem_cons_of_mem _ hm, hq2, hb⟩
      · rintro (hx | ⟨rp2, hm, hq2, hb⟩)
        · exact Or.inl hx
        · rcases List.mem_cons.mp hm with rfl | hm2
          · exact absurd hq2 hq
          · exact Or.inr ⟨rp2, hm2, hq2, hb⟩

theorem mem_shardHosts {ol : Bool} {hosts : List String} {sh : Shard}
    {x : String} :
    x ∈ shardHosts ol hosts sh ↔
      x ∈ hosts ∨
        (sh.state = "active" ∧
          ∃ rp ∈ sh.replicas, replicaQual ol rp.2 ∧ rp.2.base_url = x) := by
  unfold shardHosts
  by_cases ha : sh.state = "active"
  · rw [if_pos ha, mem_replicaFold]
    constructor
    · rintro (hx | hq)
      · exact Or.inl hx
      · exact Or.inr ⟨ha, hq⟩
    · rintro (hx | ⟨_, hq⟩)
      · exact Or.inl hx
      · exact Or.inr hq
  · rw [if_neg ha]
    constructor
    · exact fun hx => Or.inl hx
    · rintro (hx | ⟨ha2, _⟩)
      · exact hx
      · exact absurd ha2 ha

theorem mem_shardFold {ol : Bool} (shards : List (String × Shard))
    (hosts : List String) (x : String) :
    x ∈ shards.foldl (fun acc sh => shardHosts ol acc sh.2) hosts ↔
      x ∈ hosts ∨ ∃ sh ∈ shards, sh.2.state = "active" ∧
        ∃ rp ∈ sh.2.replicas, replicaQual ol rp.2 ∧ rp.2.base_url = x := by
  induction shards generalizing hosts with
  | nil => simp
  | cons sh rest ih =>
    simp only [List.foldl_cons]
    rw [ih]
    constructor
    · rintro (hx | ⟨sh2, hm, hrest⟩)
      · rcases mem_shardHosts.mp hx with hx2 | hq
        · exact Or.inl hx2
        · exact Or.inr ⟨sh, List.mem_cons_self _ _, hq⟩
      · exact Or.inr ⟨sh2, List.mem_cons_of_mem _ hm, hrest⟩
    · rintro (hx | ⟨sh2, hm, hrest⟩)
      · exact Or.inl (mem_shardHosts.mpr (Or.inl hx))
      · rcases List.mem_cons.mp hm with rfl | hm2
        · exact Or.inl (mem_shardHosts.mpr (Or.inr hrest))
        · exact Or.inr ⟨sh2, hm2, hrest⟩

theorem mem_collectHosts {coll : SolrCollection} {ol : Bool} {x : String} :
    x ∈ collectHosts coll ol ↔ QualBase coll ol x := by
  unfold collectHosts QualBase
  rw [mem_shardFold]
  simp

theorem collectHosts_eq_nil {coll : SolrCollection} {ol : Bool}
    (h : ∀ x, ¬ QualBase coll ol x) : collectHosts coll ol = [] := by
  rcases hc : collectHosts coll ol with _ | ⟨b, rest⟩
  · rfl
  · exfalso
    exact h b (mem_collectHosts.mp (hc ▸ List.mem_cons_self b rest))

theorem getAliasHostsS_keyerr {z : ZK} {c : String} (ol : Bool)
    {seen : List String} (hmem : ¬ c ∈ seen)
    (h : alookup z.aliases c = none) :
    getAliasHostsS z c ol seen = .error ("KeyError: " ++ c) := by
  unfold getAliasHostsS getAliasHostsAux
  rw [dif_neg hmem, dif_neg (by rw [h]; simp)]

theorem replicaFold_nodup {ol : Bool} (reps : List (String × Replica))
    {hosts : List String} (hn : hosts.Nodup) :
    (reps.foldl
        (fun acc rp =>
          if rp.2.state = "active" ∧ (ol = false ∨ rp.2.leader = some "true") then
            addHost acc rp.2.base_url
          else acc)
        hosts).Nodup := by
  induction reps generalizing hosts with
  | nil => exact hn
  | cons rp rest ih =>
    simp only [List.foldl_cons]
    by_cases hq : rp.2.state = "active" ∧ (ol = false ∨ rp.2.leader = some "true")
    · rw [if_pos hq]
      exact ih (addHost_nodup hn)
    · rw [if_neg hq]
      exact ih hn

theorem shardHosts_nodup {ol : Bool} {hosts : List String} {sh : Shard}
    (hn : hosts.Nodup) : (shardHosts ol hosts sh).Nodup := by
  unfold shardHosts
  by_cases ha : sh.state = "active"
  · rw [if_pos ha]
    exact replicaFold_nodup sh.replicas hn
  · rwa [if_neg ha]

theorem shardFold_nodup {ol : Bool} (shards : List (String × Shard))
    {hosts : List String} (hn : hosts.Nodup) :
    (shards.foldl (fun acc sh => shardHosts ol acc sh.2) hosts).Nodup := by
  induction shards generalizing hosts with
  | nil => exact hn
  | cons sh rest ih =>
    simp only [List.foldl_cons]
    exact ih (shardHosts_nodup hn)

theorem collectHosts_nodup (coll : SolrCollection) (ol : Bool) :
    (collectHosts coll ol).Nodup :=
  shardFold_nodup coll.shards List.nodup_nil

theorem addNew_nodup {hosts : List String} (newHosts : List String)
    (hn : hosts.Nodup) : (addNew hosts newHosts).Nodup := by
  induction newHosts generalizing hosts with
  | nil => exact hn
  | cons x rest ih =>
    simp only [addNew, List.foldl_cons]
    exact ih (addHost_nodup hn)

theorem addHost_of_not_mem {hosts : List String} {x : String}
    (h : ¬ x ∈ hosts) : addHost hosts x = hosts ++ [x] := by
  unfold addHost
  rw [if_neg h]

theorem addNew_append_of_fresh {newHosts : List String} :
    ∀ {hosts : List String}, newHosts.Nodup →
    (∀ x ∈ newHosts, ¬ x ∈ hosts) → addNew hosts newHosts = hosts ++ newHosts := by
  induction newHosts with
  | nil => intro hosts _ _; simp [addNew]
  | cons x rest ih =>
    intro hosts hn hf
    simp only [addNew, List.foldl_cons]
    rw [addHost_of_not_mem (hf x (List.mem_cons_self _ _))]
    have hres := ih (List.Nodup.of_cons hn)
      (fun y hy => by
        intro hc
        rcases List.mem_append.mp hc with hc1 | hc2
        · exact hf y (List.mem_cons_of_mem _ hy) hc1
        · rw [List.mem_singleton.mp hc2] at hy
          exact (List.nodup_cons.mp hn).1 hy)
    simp only [addNew] at hres
    rw [hres, List.append_assoc]
    rfl

theorem addNew_nil_of_nodup {newHosts : List String} (hn : newHosts.Nodup) :
    addNew [] newHosts = newHosts := by
  rw [addNew_append_of_fresh hn (fun x _ hc => (List.not_mem_nil x) hc)]
  simp

theorem aliasLoopS_acc_nodup (z : ZK) (ol : Bool) :
    ∀ (targets : List String) (seen acc : List String)
      (hosts out : List String), acc.Nodup →
      aliasLoopS z targets ol seen acc = .ok (hosts, out) → hosts.Nodup := by
  intro targets
  induction targets with
  | nil =>
    intro seen acc hosts out hacc heq
    rw [aliasLoopS_nil] at heq
    simp only [Except.ok.injEq, Prod.mk.injEq] at heq
    rw [← heq.1]
    exact hacc
  | cons t rest ih =>
    intro seen acc hosts out hacc heq
    rw [aliasLoopS_cons] at heq
    rcases hres : getHostsS z t ol seen with e | p
    · rw [hres] at heq
      exact absurd heq (by simp)
    · rcases p with ⟨h1, seen2⟩
      rw [hres] at heq
      exact ih seen2 (addNew acc h1) hosts out (addNew_nodup h1 hacc) heq

theorem getAliasHostsS_nodup {z : ZK} {c : String} {ol : Bool}
    {seen hosts out : List String}
    (heq : getAliasHostsS z c ol seen = .ok (hosts, out)) : hosts.Nodup := by
  by_cases hmem : c ∈ seen
  · rw [getAliasHostsS_seen ol hmem] at heq
    simp only [Except.ok.injEq, Prod.mk.injEq] at heq
    rw [← heq.1]
    exact List.nodup_nil
  · rcases halias : alookup z.aliases c with _ | t
    · rw [getAliasHostsS_keyerr ol hmem halias] at heq
      exact absurd heq (by simp)
    · rw [getAliasHostsS_go ol hmem halias] at heq
      exact aliasLoopS_acc_nodup z ol (commaSplit t) (seen ++ [c]) [] hosts out
        List.nodup_nil heq

theorem getHostsS_nodup {z : ZK} {c : String} {ol : Bool}
    {seen hosts out : List String}
    (heq : getHostsS z c ol seen = .ok (hosts, out)) : hosts.Nodup := by
  rcases halias : alookup z.aliases c with _ | t
  · rcases hcoll : alookup z.collections c with _ | coll
    · rw [getHostsS_unknown ol seen halias hcoll] at heq
      exact absurd heq (by simp)
    · rw [getHostsS_direct ol seen halias hcoll] at heq
      simp only [Except.ok.injEq, Prod.mk.injEq] at heq
      rw [← heq.1]
      exact collectHosts_nodup coll ol
  · rw [getHostsS_alias ol seen halias] at heq
    exact getAliasHostsS_nodup heq

/-- Python exception classes observable at the `SolrCloud._send_request`
boundary: `SolrError` (raised by resolution and by `Solr._send_request`) and
`requests.exceptions.RequestException` (transport errors the underlying
session lets through).  Both are caught by the retry loop. -/
inductive PyExc where
  | solrError (msg : String)
  | requestException (msg : String)
deriving Repr, DecidableEq

/-- Outcome of one call of `Solr._send_request` at a given URL: the returned
body, or the exception it raises.  `Solr._send_request` converts timeouts,
connection failures, `HTTPException` and non-200 statuses into `SolrError`,
and lets other `requests` exceptions escape as `RequestException`. -/
inductive HttpOutcome where
  | success (resp : String)
  | solrErr (msg : String)
  | reqExc (msg : String)
deriving Repr, DecidableEq

/-- Environment of the failover loop: the cluster-state snapshot observed at
each attempt (the store mutates under change notifications), the random draw
of each attempt, and the behaviour of the underlying single-endpoint request
at each attempt and URL. -/
structure CloudEnv where
  zkState : Nat → ZK
  pick : Nat → Nat
  http : Nat → String → HttpOutcome

deriving instance DecidableEq for Except

/-- Observable trace of one `SolrCloud._send_request` execution: the URL used
by each attempt (`none` when endpoint resolution itself raised), the sleep
durations performed, and the final outcome delivered to the caller. -/
structure LoopTrace where
  urls : List (Option String)
  waits : List Nat
  result : Except PyExc String
deriving Repr, DecidableEq

/-- The message of the terminal exhaustion error:
`"Request %s %s failed after %d attempts" % (method, path, retry_count)`. -/
def exhaustMsg (method path : String) (rc : Nat) : String :=
  "Request " ++ method ++ " " ++ path ++ " failed after " ++ toString rc
    ++ " attempts"

/-- Model of the retry loop of `SolrCloud._send_request`: `remaining`
iterations left out of `rc`, `i` the index of the current attempt, `urls` and
`waits` the trace so far.  Each iteration re-resolves the URL from the
current snapshot (`getRandomURL`, `only_leader=False`), delegates to
`Solr._send_request`, catches `SolrError` and `RequestException`, sleeps
`rt` after a failure, and raises the exhaustion `SolrError` when the budget
is gone. -/
def sendLoop (env : CloudEnv) (method path collection : String)
    (rc rt : Nat) :
    Nat → Nat → List (Option String) → List Nat → LoopTrace
  | 0, _, urls, waits =>
    { urls := urls, waits := waits,
      result := .error (.solrError (exhaustMsg method path rc)) }
  | remaining + 1, i, urls, waits =>
    match getRandomURL (env.zkState i) collection false (env.pick i) with
    | .error _ =>
      sendLoop env method path collection rc rt remaining (i + 1)
        (urls ++ [none]) (waits ++ [rt])
    | .ok url =>
      match env.http i url with
      | .success resp =>
        { urls := urls ++ [some url], waits := waits, result := .ok resp }
      | .solrErr _ =>
        sendLoop env method path collection rc rt remaining (i + 1)
          (urls ++ [some url]) (waits ++ [rt])
      | .reqExc _ =>
        sendLoop env method path collection rc rt remaining (i + 1)
          (urls ++ [some url]) (waits ++ [rt])

/-- Model of `SolrCloud._send_request`: run the retry loop with the full
budget `rc` (`retry_count`) and inter-attempt delay `rt` (`retry_timeout`). -/
def sendRequest (env : CloudEnv) (method path collection : String)
    (rc rt : Nat) : LoopTrace :=
  sendLoop env method path collection rc rt rc 0 [] []

/-- Model of `SolrCloud._update`: first `self.url = getLeaderURL(collection)`
(any `SolrError` raised here escapes uncaught, there is no surrounding try),
then `Solr._update` posts through `self._send_request`, which is
`SolrCloud._send_request` — the overridden loop that reassigns `self.url`
from `getRandomURL` before every attempt.  The leader URL computed first is
therefore returned only as the discarded first component. -/
def cloudUpdate (env : CloudEnv) (zkAtUpdate : ZK) (pickAtUpdate : Nat)
    (collection path : String) (rc rt : Nat) :
    Except String (String × LoopTrace) :=
  match getLeaderURL zkAtUpdate collection pickAtUpdate with
  | .error e => .error e
  | .ok leaderUrl =>
    .ok (leaderUrl, sendRequest env "post" path collection rc rt)

theorem getHosts_direct {z : ZK} {c : String} {coll : SolrCollection}
    (ol : Bool) (h1 : alookup z.aliases c = none)
    (h2 : alookup z.collections c = some coll) :
    getHosts z c ol = .ok (collectHosts coll ol) := by
  unfold getHosts
  rw [getHostsS_direct ol [] h1 h2]

theorem getHosts_unknown {z : ZK} {c : String} (ol : Bool)
    (h1 : alookup z.aliases c = none) (h2 : alookup z.collections c = none) :
    getHosts z c ol = .error ("Unknown collection: " ++ c) := by
  unfold getHosts
  rw [getHostsS_unknown ol [] h1 h2]

theorem getHosts_alias {z : ZK} {c t : String} (ol : Bool)
    (h : alookup z.aliases c = some t) :
    getHosts z c ol = getAliasHosts z c ol := by
  unfold getHosts getAliasHosts
  rw [getHostsS_alias ol [] h]

theorem getRandomURL_unknown {z : ZK} {c : String} (ol : Bool) (pick : Nat)
    (h1 : alookup z.aliases c = none) (h2 : alookup z.collections c = none) :
    getRandomURL z c ol pick = .error ("Unknown collection: " ++ c) := by
  unfold getRandomURL
  rw [getHosts_unknown ol h1 h2]

theorem getRandomURL_mem {z : ZK} {c : String} {ol : Bool} (pick : Nat)
    {hosts : List String} (h : getHosts z c ol = .ok hosts)
    (hne : hosts ≠ []) :
    ∃ b ∈ hosts, getRandomURL z c ol pick = .ok (b ++ "/" ++ c) := by
  unfold getRandomURL
  rw [h]
  simp only [if_neg hne]
  refine ⟨hosts.getD (pick % hosts.length) "", ?_, rfl⟩
  have hlen : pick % hosts.length < hosts.length :=
    Nat.mod_lt _ (List.length_pos.mpr hne)
  rw [List.getD_eq_getElem?_getD, List.getElem?_eq_getElem hlen]
  exact List.getElem_mem _

theorem sendLoop_result_cases (env : CloudEnv) (m p c : String) (rc rt : Nat) :
    ∀ (remaining i : Nat) (urls : List (Option String)) (waits : List Nat),
      (∃ resp, (sendLoop env m p c rc rt remaining i urls waits).result =
          .ok resp) ∨
        (sendLoop env m p c rc rt remaining i urls waits).result =
          .error (.solrError (exhaustMsg m p rc)) := by
  intro remaining
  induction remaining with
  | zero => intro i urls waits; right; rfl
  | succ r ih =>
    intro i urls waits
    rcases hres : getRandomURL (env.zkState i) c false (env.pick i) with e | url
    · have : sendLoop env m p c rc rt (r + 1) i urls waits =
          sendLoop env m p c rc rt r (i + 1) (urls ++ [none])
            (waits ++ [rt]) := by
        simp only [sendLoop, hres]
      rw [this]
      exact ih (i + 1) _ _
    · rcases hhttp : env.http i url with resp | msg | msg
      · left
        refine ⟨resp, ?_⟩
        simp only [sendLoop, hres, hhttp]
      · have : sendLoop env m p c rc rt (r + 1) i urls waits =
            sendLoop env m p c rc rt r (i + 1) (urls ++ [some url])
              (waits ++ [rt]) := by
          simp only [sendLoop, hres, hhttp]
        rw [this]
        exact ih (i + 1) _ _
      · have : sendLoop env m p c rc rt (r + 1) i urls waits =
            sendLoop env m p c rc rt r (i + 1) (urls ++ [some url])
              (waits ++ [rt]) := by
          simp only [sendLoop, hres, hhttp]
        rw [this]
        exact ih (i + 1) _ _

theorem sendLoop_all_fail (env : CloudEnv) (m p c : String) (rc rt : Nat)
    (hfail : ∀ i u r, env.http i u ≠ .success r) :
    ∀ (remaining i : Nat) (urls : List (Option String)) (waits : List Nat),
      (sendLoop env m p c rc rt remaining i urls waits).result =
          .error (.solrError (exhaustMsg m p rc)) ∧
        (sendLoop env m p c rc rt remaining i urls waits).urls.length =
          urls.length + remaining ∧
        (sendLoop env m p c rc rt remaining i urls waits).waits =
          waits ++ List.replicate remaining rt := by
  intro remaining
  induction remaining with
  | zero => intro i urls waits; exact ⟨rfl, rfl, by simp [sendLoop]⟩
  | succ r ih =>
    intro i urls waits
    rcases hres : getRandomURL (env.zkState i) c false (env.pick i) with e | url
    · have hstep : sendLoop env m p c rc rt (r + 1) i urls waits =
          sendLoop env m p c rc rt r (i + 1) (urls ++ [none])
            (waits ++ [rt]) := by
        simp only [sendLoop, hres]
      rw [hstep]
      rcases ih (i + 1) (urls ++ [none]) (waits ++ [rt]) with ⟨h1, h2, h3⟩
      refine ⟨h1, ?_, ?_⟩
      · rw [h2]
        simp only [List.length_append, List.length_singleton]
        omega
      · rw [h3, List.append_assoc]
        congr 1
    · rcases hhttp : env.http i url with resp | msg | msg
      · exact absurd hhttp (hfail i url resp)
      · have hstep : sendLoop env m p c rc rt (r + 1) i urls waits =
            sendLoop env m p c rc rt r (i + 1) (urls ++ [some url])
              (waits ++ [rt]) := by
          simp only [sendLoop, hres, hhttp]
        rw [hstep]
        rcases ih (i + 1) (urls ++ [some url]) (waits ++ [rt]) with ⟨h1, h2, h3⟩
        refine ⟨h1, ?_, ?_⟩
        · rw [h2]
          simp only [List.length_append, List.length_singleton]
          omega
        · rw [h3, List.append_assoc]
          congr 1
      · have hstep : sendLoop env m p c rc rt (r + 1) i urls waits =
            sendLoop env m p c rc rt r (i + 1) (urls ++ [some url])
              (waits ++ [rt]) := by
          simp only [sendLoop, hres, hhttp]
        rw [hstep]
        rcases ih (i + 1) (urls ++ [some url]) (waits ++ [rt]) with ⟨h1, h2, h3⟩
        refine ⟨h1, ?_, ?_⟩
        · rw [h2]
          simp only [List.length_append, List.length_singleton]
          omega
        · rw [h3, List.append_assoc]
          congr 1

theorem sendLoop_resolution_fail (env : CloudEnv) (m p c : String)
    (rc rt : Nat)
    (hfail : ∀ i, ∃ e,
      getRandomURL (env.zkState i) c false (env.pick i) = .error e) :
    ∀ (remaining i : Nat) (urls : List (Option String)) (waits : List Nat),
      sendLoop env m p c rc rt remaining i urls waits =
        { urls := urls ++ List.replicate remaining none,
          waits := waits ++ List.replicate remaining rt,
          result := .error (.solrError (exhaustMsg m p rc)) } := by
  intro remaining
  induction remaining with
  | zero => intro i urls waits; simp [sendLoop]
  | succ r ih =>
    intro i urls waits
    rcases hfail i with ⟨e, hres⟩
    have hstep : sendLoop env m p c rc rt (r + 1) i urls waits =
        sendLoop env m p c rc rt r (i + 1) (urls ++ [none])
          (waits ++ [rt]) := by
      simp only [sendLoop, hres]
    rw [hstep, ih (i + 1)]
    have hu : urls ++ [none] ++ List.replicate r none =
        urls ++ List.replicate (r + 1) none := by
      rw [List.append_assoc, List.replicate_succ]
      rfl
    have hw : waits ++ [rt] ++ List.replicate r rt =
        waits ++ List.replicate (r + 1) rt := by
      rw [List.append_assoc, List.replicate_succ]
      rfl
    rw [hu, hw]

/-- View of a resolution outcome as the URL actually assigned to `self.url`
by an attempt: `none` when resolution raised instead. -/
def optOf : Except String String → Option String
  | .ok u => some u
  | .error _ => none

theorem snoc_get_invariant {P : Nat → Option String → Prop}
    {urls : List (Option String)} {i : Nat} {x : Option String}
    (hlen : urls.length = i)
    (hinv : ∀ j o, urls.get? j = some o → P j o) (hx : P i x) :
    ∀ j o, (urls ++ [x]).get? j = some o → P j o := by
  intro j o h
  by_cases hj : j < urls.length
  · rw [List.get?_append hj] at h
    exact hinv j o h
  · by_cases hje : j = urls.length
    · subst hje
      rw [List.get?_concat_length] at h
      have hxo : x = o := by injection h
      rw [← hxo, hlen]
      exact hx
    · have hge : urls.length + 1 ≤ j := by omega
      rw [List.get?_eq_none.mpr (by simpa using hge)] at h
      exact absurd h (by simp)

theorem sendLoop_urls_fresh (env : CloudEnv) (m p c : String) (rc rt : Nat) :
    ∀ (remaining i : Nat) (urls : List (Option String)) (waits : List Nat),
      urls.length = i →
      (∀ j o, urls.get? j = some o →
        o = optOf (getRandomURL (env.zkState j) c false (env.pick j))) →
      ∀ j o,
        (sendLoop env m p c rc rt remaining i urls waits).urls.get? j =
          some o →
        o = optOf (getRandomURL (env.zkState j) c false (env.pick j)) := by
  intro remaining
  induction remaining with
  | zero => intro i urls waits _ hinv j o h; exact hinv j o h
  | succ r ih =>
    intro i urls waits hlen hinv j o h
    rcases hres : getRandomURL (env.zkState i) c false (env.pick i) with e | url
    · have hstep : sendLoop env m p c rc rt (r + 1) i urls waits =
          sendLoop env m p c rc rt r (i + 1) (urls ++ [none])
            (waits ++ [rt]) := by
        simp only [sendLoop, hres]
      rw [hstep] at h
      exact ih (i + 1) (urls ++ [none]) (waits ++ [rt])
        (by simp [hlen])
        (snoc_get_invariant hlen hinv (by rw [hres]; rfl)) j o h
    · rcases hhttp : env.http i url with resp | msg | msg
      · have hstep : sendLoop env m p c rc rt (r + 1) i urls waits =
            { urls := urls ++ [some url], waits := waits,
              result := .ok resp } := by
          simp only [sendLoop, hres, hhttp]
        rw [hstep] at h
        exact snoc_get_invariant hlen hinv (by rw [hres]; rfl) j o h
      · have hstep : sendLoop env m p c rc rt (r + 1) i urls waits =
            sendLoop env m p c rc rt r (i + 1) (urls ++ [some url])
              (waits ++ [rt]) := by
          simp only [sendLoop, hres, hhttp]
        rw [hstep] at h
        exact ih (i + 1) (urls ++ [some url]) (waits ++ [rt])
          (by simp [hlen])
          (snoc_get_invariant hlen hinv (by rw [hres]; rfl)) j o h
      · have hstep : sendLoop env m p c rc rt (r + 1) i urls waits =
            sendLoop env m p c rc rt r (i + 1) (urls ++ [some url])
              (waits ++ [rt]) := by
          simp only [sendLoop, hres, hhttp]
        rw [hstep] at h
        exact ih (i + 1) (urls ++ [some url]) (waits ++ [rt])
          (by simp [hlen])
          (snoc_get_invariant hlen hinv (by rw [hres]; rfl)) j o h

/-- Leader replica of the standard example topology. -/
def replicaLeader : Replica :=
  { state := "active", leader := some "true", base_url := "http://leader" }

/-- Active non-leader replica of the standard example topology. -/
def replicaFollower : Replica :=
  { state := "active", leader := none, base_url := "http://other" }

/-- Example collection: one active shard with an active leader and an active
non-leader replica. -/
def collA : SolrCollection :=
  { shards := [("shard1",
      { state := "active",
        replicas := [("r1", replicaLeader), ("r2", replicaFollower)] })] }

/-- Example snapshot holding only collection `c`. -/
def zkA : ZK := { collections := [("c", collA)], aliases := [] }

/-- Snapshot with no collections and no aliases. -/
def zkEmpty : ZK := { collections := [], aliases := [] }

/-- Environment over `zkA` whose random draw selects index 1 (the non-leader
replica on the read path) and whose transport always succeeds. -/
def envA : CloudEnv :=
  { zkState := fun _ => zkA, pick := fun _ => 1,
    http := fun _ _ => .success "resp" }

/-- Environment over `zkA` whose transport always raises a
`RequestException`. -/
def envFail : CloudEnv :=
  { zkState := fun _ => zkA, pick := fun _ => 0,
    http := fun _ _ => .reqExc "boom" }

/-- Environment over the empty snapshot: every resolution raises the
unknown-collection `SolrError`. -/
def envUnknown : CloudEnv :=
  { zkState := fun _ => zkEmpty, pick := fun _ => 0,
    http := fun _ _ => .success "resp" }

/-- Claim C3: every `SolrCloud._send_request` execution delivers either a
successful response or the single exhaustion `SolrError`; the per-attempt
`SolrError` and `RequestException` failures are all caught inside the loop
and never reach the caller. -/
theorem C3_caller_sees_success_or_exhaustion (env : CloudEnv)
    (m p c : String) (rc rt : Nat) :
    (∃ resp, (sendRequest env m p c rc rt).result = .ok resp) ∨
      (sendRequest env m p c rc rt).result =
        .error (.solrError (exhaustMsg m p rc)) :=
  sendLoop_result_cases env m p c rc rt rc 0 [] []

/-- Claim C4: when every attempt fails, `SolrCloud._send_request` makes
exactly `retry_count` attempts, sleeps the configured delay after each failed
attempt, and raises the terminal `SolrError` naming the method, the path and
the attempt count. -/
theorem C4_exhaustion_after_exact_budget (env : CloudEnv) (m p c : String)
    (rc rt : Nat) (hfail : ∀ i u r, env.http i u ≠ .success r) :
    (sendRequest env m p c rc rt).result =
        .error (.solrError (exhaustMsg m p rc)) ∧
      (sendRequest env m p c rc rt).urls.length = rc ∧
      (sendRequest env m p c rc rt).waits = List.replicate rc rt := by
  have h := sendLoop_all_fail env m p c rc rt hfail rc 0 [] []
  simpa using h

/-- Witness for C4 at a persistently failing transport with a budget of 3 and
delay 2. -/
theorem C4_exhaustion_after_exact_budget_witness :
    (∀ i u r, envFail.http i u ≠ .success r) ∧
      ((sendRequest envFail "get" "select/" "c" 3 2).result =
          .error (.solrError (exhaustMsg "get" "select/" 3)) ∧
        (sendRequest envFail "get" "select/" "c" 3 2).urls.length = 3 ∧
        (sendRequest envFail "get" "select/" "c" 3 2).waits =
          List.replicate 3 2) ∧
      exhaustMsg "get" "select/" 3 =
        "Request get select/ failed after 3 attempts" :=
  ⟨fun _ _ _ h => HttpOutcome.noConfusion h,
    C4_exhaustion_after_exact_budget envFail "get" "select/" "c" 3 2
      (fun _ _ _ h => HttpOutcome.noConfusion h),
    by decide⟩

/-- Claim C2 (amended): a request naming an unknown collection raises the
unknown-collection `SolrError` inside each attempt; the loop catches it like
any other `SolrError`, consumes the full retry budget with a sleep after each
attempt, and surfaces only the exhaustion error — the unknown-collection
error never reaches the caller. -/
theorem C2_amended_unknown_collection_is_retried (env : CloudEnv)
    (m p coll : String) (rc rt : Nat)
    (hunk : ∀ i, alookup (env.zkState i).aliases coll = none ∧
      alookup (env.zkState i).collections coll = none) :
    sendRequest env m p coll rc rt =
      { urls := List.replicate rc none, waits := List.replicate rc rt,
        result := .error (.solrError (exhaustMsg m p rc)) } := by
  have hres : ∀ i, ∃ e,
      getRandomURL (env.zkState i) coll false (env.pick i) = .error e :=
    fun i => ⟨_, getRandomURL_unknown false (env.pick i) (hunk i).1 (hunk i).2⟩
  have h := sendLoop_resolution_fail env m p coll rc rt hres rc 0 [] []
  simpa using h

/-- Witness for the amended C2 on the empty snapshot. -/
theorem C2_amended_unknown_collection_is_retried_witness :
    (∀ i, alookup (envUnknown.zkState i).aliases "c" = none ∧
        alookup (envUnknown.zkState i).collections "c" = none) ∧
      sendRequest envUnknown "post" "update/" "c" 2 5 =
        { urls := List.replicate 2 none, waits := List.replicate 2 5,
          result := .error (.solrError (exhaustMsg "post" "update/" 2)) } :=
  ⟨fun _ => ⟨rfl, rfl⟩,
    C2_amended_unknown_collection_is_retried envUnknown "post" "update/" "c"
      2 5 (fun _ => ⟨rfl, rfl⟩)⟩

/-- Counterexample to C2 as stated: on a snapshot where `c` is unknown, the
executor does not surface the unknown-collection error and does consume the
whole retry budget — three attempts are made and the caller sees the
exhaustion error instead. -/
theorem C2_counterexample_unknown_collection_not_immediate :
    alookup (envUnknown.zkState 0).aliases "c" = none ∧
      alookup (envUnknown.zkState 0).collections "c" = none ∧
      (sendRequest envUnknown "get" "select/" "c" 3 1).urls.length = 3 ∧
      (sendRequest envUnknown "get" "select/" "c" 3 1).result =
        .error (.solrError "Request get select/ failed after 3 attempts") ∧
      (sendRequest envUnknown "get" "select/" "c" 3 1).result ≠
        .error (.solrError "Unknown collection: c") := by
  have hres : ∀ i, ∃ e,
      getRandomURL (envUnknown.zkState i) "c" false (envUnknown.pick i) =
        .error e :=
    fun i => ⟨_, getRandomURL_unknown false _ rfl rfl⟩
  have h := sendLoop_resolution_fail envUnknown "get" "select/" "c" 3 1 hres
    3 0 [] []
  have hreq : sendRequest envUnknown "get" "select/" "c" 3 1 =
      { urls := List.replicate 3 none, waits := List.replicate 3 1,
        result :=
          .error (.solrError (exhaustMsg "get" "select/" 3)) } := by
    unfold sendRequest
    rw [h]
    simp
  refine ⟨rfl, rfl, ?_, ?_, ?_⟩
  · rw [hreq]
    decide
  · rw [hreq]
    decide
  · rw [hreq]
    decide

/-- Claim C9: the URL recorded for attempt `i` of the retry loop is exactly
the resolution of the collection against the snapshot observed at attempt
`i` (`none` when that resolution raised); endpoint choice is re-derived every
attempt, never cached. -/
theorem C9_url_rederived_every_attempt (env : CloudEnv) (m p c : String)
    (rc rt : Nat) :
    ∀ j o, (sendRequest env m p c rc rt).urls.get? j = some o →
      o = optOf (getRandomURL (env.zkState j) c false (env.pick j)) :=
  sendLoop_urls_fresh env m p c rc rt rc 0 [] [] rfl
    (fun _ _ h => nomatch h)

theorem sendLoop_step_success {env : CloudEnv} {m p c : String}
    {rc rt r i : Nat} {urls : List (Option String)} {waits : List Nat}
    {url resp : String}
    (hres : getRandomURL (env.zkState i) c false (env.pick i) = .ok url)
    (hhttp : env.http i url = .success resp) :
    sendLoop env m p c rc rt (r + 1) i urls waits =
      { urls := urls ++ [some url], waits := waits, result := .ok resp } := by
  simp only [sendLoop, hres, hhttp]

theorem sendLoop_step_httpfail {env : CloudEnv} {m p c : String}
    {rc rt r i : Nat} {urls : List (Option String)} {waits : List Nat}
    {url : String}
    (hres : getRandomURL (env.zkState i) c false (env.pick i) = .ok url)
    (hhttp : (∃ msg, env.http i url = .solrErr msg) ∨
      (∃ msg, env.http i url = .reqExc msg)) :
    sendLoop env m p c rc rt (r + 1) i urls waits =
      sendLoop env m p c rc rt r (i + 1) (urls ++ [some url])
        (waits ++ [rt]) := by
  rcases hhttp with ⟨msg, hh⟩ | ⟨msg, hh⟩ <;> simp only [sendLoop, hres, hh]

theorem sendLoop_step_resfail {env : CloudEnv} {m p c : String}
    {rc rt r i : Nat} {urls : List (Option String)} {waits : List Nat}
    {e : String}
    (hres : getRandomURL (env.zkState i) c false (env.pick i) = .error e) :
    sendLoop env m p c rc rt (r + 1) i urls waits =
      sendLoop env m p c rc rt r (i + 1) (urls ++ [none])
        (waits ++ [rt]) := by
  simp only [sendLoop, hres]

/-- Witness for C9: a single-attempt run over `zkA` records exactly the URL
that the attempt-0 snapshot and random draw resolve to. -/
theorem C9_url_rederived_every_attempt_witness :
    (sendRequest envA "get" "sel/" "c" 1 1).urls.get? 0 =
        some (some "http://other/c") ∧
      some "http://other/c" =
        optOf (getRandomURL (envA.zkState 0) "c" false (envA.pick 0)) := by
  have hR : getRandomURL (envA.zkState 0) "c" false (envA.pick 0) =
      .ok "http://other/c" := by
    show getRandomURL zkA "c" false 1 = .ok "http://other/c"
    unfold getRandomURL
    rw [getHosts_direct false (show alookup zkA.aliases "c" = none from rfl)
      (show alookup zkA.collections "c" = some collA from rfl)]
    decide
  have htrace : sendRequest envA "get" "sel/" "c" 1 1 =
      { urls := [some "http://other/c"], waits := [], result := .ok "resp" } := by
    unfold sendRequest
    show sendLoop envA "get" "sel/" "c" 1 1 (0 + 1) 0 [] [] = _
    rw [sendLoop_step_success hR rfl]
    rfl
  have hget : (sendRequest envA "get" "sel/" "c" 1 1).urls.get? 0 =
      some (some "http://other/c") := by
    rw [htrace]
    rfl
  exact ⟨hget,
    C9_url_rederived_every_attempt envA "get" "sel/" "c" 1 1 0 _ hget⟩

theorem qualBase_of_leader {coll : SolrCollection} {b : String}
    (h : QualBase coll true b) : QualBase coll false b := by
  rcases h with ⟨sh, hsh, hact, rp, hrp, ⟨hst, _⟩, hb⟩
  exact ⟨sh, hsh, hact, rp, hrp, ⟨hst, Or.inl rfl⟩, hb⟩

theorem noactive_ne_unknown (c : String) :
    ("ZooKeeper returned no active shards!" : String) ≠
      "Unknown collection: " ++ c := by
  intro h
  have hd := congrArg String.data h
  rw [String.data_append] at hd
  exact absurd (List.head_eq_of_cons_eq hd) (by decide)

/-- Claim C5: for a non-aliased collection holding at least one active leader
replica inside an active shard, `getLeaderURL` returns one URL of the form
`base/collection` whose base is the URL of an active leader replica in an
active shard — never that of a non-leader or inactive replica — for every
random draw. -/
theorem C5_leader_url_only_from_active_leaders (z : ZK) (c : String)
    (coll : SolrCollection) (pick : Nat)
    (h1 : alookup z.aliases c = none)
    (h2 : alookup z.collections c = some coll)
    (h3 : ∃ b, QualBase coll true b) :
    ∃ b, QualBase coll true b ∧ getLeaderURL z c pick = .ok (b ++ "/" ++ c) := by
  have hH : getHosts z c true = .ok (collectHosts coll true) :=
    getHosts_direct true h1 h2
  have hne : collectHosts coll true ≠ [] := by
    rcases h3 with ⟨b, hb⟩
    intro hnil
    have hmem : b ∈ collectHosts coll true := mem_collectHosts.mpr hb
    rw [hnil] at hmem
    exact List.not_mem_nil b hmem
  obtain ⟨b, hbmem, hurl⟩ := getRandomURL_mem pick hH hne
  exact ⟨b, mem_collectHosts.mp hbmem, hurl⟩

/-- Witness for C5 on `zkA`: the returned URL is the leader's. -/
theorem C5_leader_url_only_from_active_leaders_witness :
    (alookup zkA.aliases "c" = none) ∧
      (alookup zkA.collections "c" = some collA) ∧
      (∃ b, QualBase collA true b) ∧
      (∃ b, QualBase collA true b ∧
        getLeaderURL zkA "c" 7 = .ok (b ++ "/" ++ "c")) :=
  ⟨rfl, rfl, ⟨"http://leader", by decide⟩,
    C5_leader_url_only_from_active_leaders zkA "c" collA 7 rfl rfl
      ⟨"http://leader", by decide⟩⟩

/-- Claim C7: for a non-aliased collection that exists but has no active
replica inside an active shard, both the read-path and the leader-path
resolution fail with the no-capacity `SolrError` whose message is distinct
from the unknown-collection message. -/
theorem C7_no_capacity_error (z : ZK) (c : String) (coll : SolrCollection)
    (pick : Nat)
    (h1 : alookup z.aliases c = none)
    (h2 : alookup z.collections c = some coll)
    (h3 : ∀ b, ¬ QualBase coll false b) :
    getRandomURL z c false pick =
        .error "ZooKeeper returned no active shards!" ∧
      getLeaderURL z c pick =
        .error "ZooKeeper returned no active shards!" ∧
      ("ZooKeeper returned no active shards!" : String) ≠
        "Unknown collection: " ++ c := by
  have hnilF : collectHosts coll false = [] := collectHosts_eq_nil h3
  have hnilT : collectHosts coll true = [] :=
    collectHosts_eq_nil (fun b hb => h3 b (qualBase_of_leader hb))
  refine ⟨?_, ?_, noactive_ne_unknown c⟩
  · unfold getRandomURL
    rw [getHosts_direct false h1 h2, hnilF]
    rfl
  · unfold getLeaderURL getRandomURL
    rw [getHosts_direct true h1 h2, hnilT]
    rfl

/-- Collection whose only replica is not active. -/
def collDown : SolrCollection :=
  { shards := [("shard1",
      { state := "active",
        replicas :=
          [("r1",
            { state := "down", leader := some "true",
              base_url := "http://x" })] })] }

/-- Snapshot holding only the all-down collection `d`. -/
def zkDown : ZK := { collections := [("d", collDown)], aliases := [] }

/-- Witness for C7 on `zkDown`. -/
theorem C7_no_capacity_error_witness :
    (alookup zkDown.aliases "d" = none) ∧
      (alookup zkDown.collections "d" = some collDown) ∧
      (∀ b, ¬ QualBase collDown false b) ∧
      (getRandomURL zkDown "d" false 3 =
        .error "ZooKeeper returned no active shards!" ∧
      getLeaderURL zkDown "d" 3 =
        .error "ZooKeeper returned no active shards!" ∧
      ("ZooKeeper returned no active shards!" : String) ≠
        "Unknown collection: " ++ "d") := by
  have h3 : ∀ b, ¬ QualBase collDown false b := by
    intro b hb
    have hmem : b ∈ collectHosts collDown false := mem_collectHosts.mpr hb
    rw [show collectHosts collDown false = [] from rfl] at hmem
    exact List.not_mem_nil b hmem
  exact ⟨rfl, rfl, h3, C7_no_capacity_error zkDown "d" collDown 3 rfl rfl h3⟩

/-- Claim C8: every host list returned by resolution is duplicate-free: a
base URL appears at most once even when reachable through several shards or
several alias paths. -/
theorem C8_resolved_hosts_nodup (z : ZK) (c : String) (ol : Bool)
    (hosts : List String) (h : getHosts z c ol = .ok hosts) : hosts.Nodup := by
  unfold getHosts at h
  rcases hres : getHostsS z c ol [] with e | p
  · rw [hres] at h
    exact absurd h (by simp)
  · rcases p with ⟨hs, out⟩
    rw [hres] at h
    simp only [Except.ok.injEq] at h
    rw [← h]
    exact getHostsS_nodup hres

/-- Collection reaching the base URL `http://u` through two different shards:
resolution must report it once. -/
def collDup : SolrCollection :=
  ⟨[("s1", ⟨"active", [("r1", ⟨"active", some "true", "http://u"⟩)]⟩),
    ("s2", ⟨"active", [("r2", ⟨"active", none, "http://u"⟩),
                       ("r3", ⟨"active", none, "http://v"⟩)]⟩)]⟩

/-- Snapshot holding only the duplicate-URL collection `e`. -/
def zkDup : ZK := { collections := [("e", collDup)], aliases := [] }

/-- Witness for C8: the URL reachable through both shards appears once. -/
theorem C8_resolved_hosts_nodup_witness :
    getHosts zkDup "e" false = .ok ["http://u", "http://v"] ∧
      (["http://u", "http://v"] : List String).Nodup := by
  have heval : getHosts zkDup "e" false = .ok ["http://u", "http://v"] := by
    unfold getHosts
    rw [getHostsS_direct false []
      (show alookup zkDup.aliases "e" = none from rfl)
      (show alookup zkDup.collections "e" = some collDup from rfl)]
    decide
  exact ⟨heval, C8_resolved_hosts_nodup zkDup "e" false _ heval⟩

theorem unvisited_eq_of_aliases_eq {z z' : ZK} (hal : z.aliases = z'.aliases)
    (seen : List String) : unvisited z seen = unvisited z' seen := by
  unfold unvisited aliasKeys
  rw [hal]

theorem resolution_agree (z z' : ZK) (hal : z.aliases = z'.aliases)
    (hcoll : ∀ x, alookup z.aliases x = none →
      alookup z.collections x = alookup z'.collections x) :
    ∀ n : Nat,
      (∀ c ol seen, unvisited z seen ≤ n →
        getHostsS z c ol seen = getHostsS z' c ol seen) ∧
      (∀ c ol seen, unvisited z seen ≤ n →
        getAliasHostsS z c ol seen = getAliasHostsS z' c ol seen) ∧
      (∀ targets ol seen hosts, unvisited z seen ≤ n →
        aliasLoopS z targets ol seen hosts =
          aliasLoopS z' targets ol seen hosts) := by
  intro n
  induction n using Nat.strong_induction_on with
  | _ n ih =>
    have hB : ∀ c ol seen, unvisited z seen ≤ n →
        getAliasHostsS z c ol seen = getAliasHostsS z' c ol seen := by
      intro c ol seen hn
      by_cases hmem : c ∈ seen
      · rw [getAliasHostsS_seen ol hmem, getAliasHostsS_seen ol hmem]
      · rcases halias : alookup z.aliases c with _ | t
        · rw [getAliasHostsS_keyerr ol hmem halias,
            getAliasHostsS_keyerr ol hmem (hal ▸ halias)]
        · have halias2 : alookup z'.aliases c = some t := hal ▸ halias
          rw [getAliasHostsS_go ol hmem halias,
            getAliasHostsS_go ol hmem halias2]
          have hlt : unvisited z (seen ++ [c]) < unvisited z seen :=
            unvisited_append_lt (alookup_mem_keys halias) hmem
          have hm : unvisited z (seen ++ [c]) < n := Nat.lt_of_lt_of_le hlt hn
          exact (ih _ hm).2.2 (commaSplit t) ol (seen ++ [c]) []
            (Nat.le_refl _)
    have hA : ∀ c ol seen, unvisited z seen ≤ n →
        getHostsS z c ol seen = getHostsS z' c ol seen := by
      intro c ol seen hn
      rcases halias : alookup z.aliases c with _ | t
      · have halias2 : alookup z'.aliases c = none := hal ▸ halias
        rcases hc : alookup z.collections c with _ | coll
        · rw [getHostsS_unknown ol seen halias hc,
            getHostsS_unknown ol seen halias2 ((hcoll c halias) ▸ hc)]
        · rw [getHostsS_direct ol seen halias hc,
            getHostsS_direct ol seen halias2 ((hcoll c halias) ▸ hc)]
      · rw [getHostsS_alias ol seen halias,
          getHostsS_alias ol seen (show alookup z'.aliases c = some t from
            hal ▸ halias)]
        exact hB c ol seen hn
    refine ⟨hA, hB, ?_⟩
    intro targets
    induction targets with
    | nil =>
      intro ol seen hosts _
      rw [aliasLoopS_nil, aliasLoopS_nil]
    | cons t rest ihT =>
      intro ol seen hosts hn
      rw [aliasLoopS_cons, aliasLoopS_cons, ← hA t ol seen hn]
      rcases hres : getHostsS z t ol seen with e | p
      · rfl
      · rcases p with ⟨h1, seen2⟩
        have hsub : seen ⊆ seen2 := getHostsS_seen_subset hres
        exact ihT ol seen2 (addNew hosts h1)
          (Nat.le_trans (unvisited_mono hsub) hn)

/-- Claim C10: a name that is both a known alias and a known collection is
resolved through the alias branch (checked first), and the collection map
entry under that name is never consulted: overriding it with any topology
leaves resolution unchanged. -/
theorem C10_alias_shadows_collection (z : ZK) (c t : String) (ol : Bool)
    (coll : SolrCollection) (h : alookup z.aliases c = some t) :
    getHosts z c ol = getAliasHosts z c ol ∧
      getHosts (ZK.mk ((c, coll) :: z.collections) z.aliases) c ol =
        getHosts z c ol := by
  refine ⟨getHosts_alias ol h, ?_⟩
  have hcoll : ∀ x,
      alookup (ZK.mk ((c, coll) :: z.collections) z.aliases).aliases x =
        none →
      alookup (ZK.mk ((c, coll) :: z.collections) z.aliases).collections x =
        alookup z.collections x := by
    intro x hx
    have hxc : ¬ (c = x) := by
      intro hcx
      rw [← hcx] at hx
      rw [h] at hx
      exact absurd hx (by simp)
    show alookup ((c, coll) :: z.collections) x = alookup z.collections x
    simp only [alookup]
    rw [if_neg hxc]
  have hres := (resolution_agree
    (ZK.mk ((c, coll) :: z.collections) z.aliases) z rfl hcoll
    (unvisited (ZK.mk ((c, coll) :: z.collections) z.aliases) [])).1
    c ol [] (Nat.le_refl _)
  unfold getHosts
  rw [hres]

/-- Collection stored under the alias name `s` itself — shadowed, never
consulted. -/
def collOwn : SolrCollection :=
  ⟨[("s0", ⟨"active", [("r0", ⟨"active", some "true", "http://own"⟩)]⟩)]⟩

/-- Snapshot where `s` is simultaneously an alias for `c` and a stored
collection with its own (different) topology. -/
def zkShadow : ZK :=
  { collections := [("s", collOwn), ("c", collA)],
    aliases := [("s", "c")] }

/-- Witness for C10 on `zkShadow`: resolving `s` returns collection `c`'s
hosts (the alias target), not `http://own`, and overriding the stored entry
for `s` changes nothing. -/
theorem C10_alias_shadows_collection_witness :
    alookup zkShadow.aliases "s" = some "c" ∧
      (getHosts zkShadow "s" false = getAliasHosts zkShadow "s" false ∧
        getHosts (ZK.mk (("s", collDup) :: zkShadow.collections)
            zkShadow.aliases) "s" false =
          getHosts zkShadow "s" false) ∧
      getHosts zkShadow "s" false = .ok ["http://leader", "http://other"] := by
  have heval : getHosts zkShadow "s" false =
      .ok ["http://leader", "http://other"] := by
    unfold getHosts
    rw [getHostsS_alias false []
      (show alookup zkShadow.aliases "s" = some "c" from rfl)]
    rw [getAliasHostsS_go false (show ¬ "s" ∈ ([] : List String) by simp)
      (show alookup zkShadow.aliases "s" = some "c" from rfl)]
    rw [show commaSplit "c" = ["c"] from by decide]
    rw [aliasLoopS_cons]
    simp only [List.nil_append]
    rw [getHostsS_direct false ["s"]
      (show alookup zkShadow.aliases "c" = none from rfl)
      (show alookup zkShadow.collections "c" = some collA from rfl)]
    show (match aliasLoopS zkShadow [] false ["s"]
        (addNew [] (collectHosts collA false)) with
      | .error e => Except.error e
      | .ok (hosts, _) => Except.ok hosts) =
      .ok ["http://leader", "http://other"]
    rw [aliasLoopS_nil]
    decide
  exact ⟨rfl,
    C10_alias_shadows_collection zkShadow "s" "c" false collDup rfl, heval⟩

/-- Claim C1 (code bug): `SolrCloud._update` computes the leader URL and logs
"Using leader URL", but `Solr._update` then posts through
`SolrCloud._send_request`, which overwrites `self.url` with
`getRandomURL(collection)` (leader flag not set) before the attempt: on a
topology with an active leader `http://leader` and an active non-leader
`http://other`, the write attempt is sent to `http://other/c`, whose base is
not a leader replica. -/
theorem C1_write_attempt_lands_on_nonleader :
    cloudUpdate envA zkA 0 "c" "update/" 1 1 =
      .ok ("http://leader" ++ "/" ++ "c",
        { urls := [some "http://other/c"], waits := [],
          result := .ok "resp" }) ∧
      ¬ QualBase collA true "http://other" ∧
      QualBase collA false "http://other" ∧
      QualBase collA true "http://leader" := by
  have hL : getLeaderURL zkA "c" 0 = .ok ("http://leader" ++ "/" ++ "c") := by
    unfold getLeaderURL getRandomURL
    rw [getHosts_direct true (show alookup zkA.aliases "c" = none from rfl)
      (show alookup zkA.collections "c" = some collA from rfl)]
    decide
  have hR : getRandomURL (envA.zkState 0) "c" false (envA.pick 0) =
      .ok "http://other/c" := by
    show getRandomURL zkA "c" false 1 = _
    unfold getRandomURL
    rw [getHosts_direct false (show alookup zkA.aliases "c" = none from rfl)
      (show alookup zkA.collections "c" = some collA from rfl)]
    decide
  have htrace : sendRequest envA "post" "update/" "c" 1 1 =
      { urls := [some "http://other/c"], waits := [],
        result := .ok "resp" } := by
    unfold sendRequest
    show sendLoop envA "post" "update/" "c" 1 1 (0 + 1) 0 [] [] = _
    rw [sendLoop_step_success hR rfl]
    rfl
  refine ⟨?_, by decide, by decide, by decide⟩
  unfold cloudUpdate
  rw [hL, htrace]

/-- Alias chain: each name in `names` is an alias whose target list is
exactly the next name; the last name's target list (split on commas) is
`cs`. -/
def IsAliasChain (z : ZK) : List String → List String → Prop
  | [], _ => False
  | [a], cs => ∃ t, alookup z.aliases a = some t ∧ commaSplit t = cs
  | a :: b :: rest, cs =>
    (∃ t, alookup z.aliases a = some t ∧ commaSplit t = [b]) ∧
      IsAliasChain z (b :: rest) cs

/-- Hosts of a stored collection by name (the direct branch of `getHosts`),
empty for an unknown name. -/
def collHostsOf (z : ZK) (c : String) (ol : Bool) : List String :=
  match alookup z.collections c with
  | some coll => collectHosts coll ol
  | none => []

theorem foldl_addNew_nodup (z : ZK) (ol : Bool) (cs : List String) :
    ∀ acc : List String, acc.Nodup →
      (cs.foldl (fun h c => addNew h (collHostsOf z c ol)) acc).Nodup := by
  induction cs with
  | nil => intro acc h; exact h
  | cons c rest ih =>
    intro acc h
    simp only [List.foldl_cons]
    exact ih _ (addNew_nodup _ h)

theorem aliasLoopS_real (z : ZK) (ol : Bool) :
    ∀ (cs : List String) (seen hosts : List String),
      (∀ c ∈ cs, alookup z.aliases c = none ∧
        (alookup z.collections c).isSome) →
      aliasLoopS z cs ol seen hosts =
        .ok (cs.foldl (fun h c => addNew h (collHostsOf z c ol)) hosts,
          seen) := by
  intro cs
  induction cs with
  | nil =>
    intro seen hosts _
    rw [aliasLoopS_nil]
    rfl
  | cons c rest ih =>
    intro seen hosts hreal
    rw [aliasLoopS_cons]
    obtain ⟨hna, hsome⟩ := hreal c (List.mem_cons_self _ _)
    obtain ⟨coll, hcoll⟩ := Option.isSome_iff_exists.mp hsome
    rw [getHostsS_direct ol seen hna hcoll]
    show aliasLoopS z rest ol seen
        (addNew hosts (collectHosts coll ol)) = _
    rw [ih seen _ (fun c2 hc2 => hreal c2 (List.mem_cons_of_mem _ hc2))]
    have hh : collHostsOf z c ol = collectHosts coll ol := by
      unfold collHostsOf
      rw [hcoll]
    rw [List.foldl_cons, hh]

theorem chain_resolves (z : ZK) (ol : Bool) :
    ∀ (names : List String) (cs : List String) (seen : List String),
      names ≠ [] → names.Nodup → (∀ a ∈ names, ¬ a ∈ seen) →
      IsAliasChain z names cs →
      (∀ c ∈ cs, alookup z.aliases c = none ∧
        (alookup z.collections c).isSome) →
      getHostsS z (names.headD "") ol seen =
        .ok (cs.foldl (fun h c => addNew h (collHostsOf z c ol)) [],
          seen ++ names) := by
  intro names
  induction names with
  | nil => intro cs seen hne; exact absurd rfl hne
  | cons a names2 ih =>
    intro cs seen _ hnodup hdisj hchain hreal
    rcases names2 with _ | ⟨b, rest⟩
    · obtain ⟨t, hat, hsplit⟩ := hchain
      have hmem : ¬ a ∈ seen := hdisj a (List.mem_cons_self _ _)
      show getHostsS z a ol seen = _
      rw [getHostsS_alias ol seen hat, getAliasHostsS_go ol hmem hat, hsplit,
        aliasLoopS_real z ol cs (seen ++ [a]) [] hreal]
    · obtain ⟨⟨t, hat, hsplit⟩, hchain2⟩ := hchain
      have hmem : ¬ a ∈ seen := hdisj a (List.mem_cons_self _ _)
      have hnodup2 : (b :: rest).Nodup := (List.nodup_cons.mp hnodup).2
      have hanotin : ¬ a ∈ (b :: rest) := (List.nodup_cons.mp hnodup).1
      have hdisj2 : ∀ x ∈ (b :: rest), ¬ x ∈ seen ++ [a] := by
        intro x hx hmemx
        rcases List.mem_append.mp hmemx with hx1 | hx2
        · exact hdisj x (List.mem_cons_of_mem _ hx) hx1
        · rw [List.mem_singleton.mp hx2] at hx
          exact hanotin hx
      have hb := ih cs (seen ++ [a]) (by simp) hnodup2 hdisj2 hchain2 hreal
      show getHostsS z a ol seen = _
      rw [getHostsS_alias ol seen hat, getAliasHostsS_go ol hmem hat, hsplit,
        aliasLoopS_cons]
      have hb2 : getHostsS z b ol (seen ++ [a]) =
          .ok (cs.foldl (fun h c => addNew h (collHostsOf z c ol)) [],
            (seen ++ [a]) ++ (b :: rest)) := hb
      rw [hb2]
      show aliasLoopS z [] ol ((seen ++ [a]) ++ (b :: rest))
          (addNew []
            (cs.foldl (fun h c => addNew h (collHostsOf z c ol)) [])) = _
      rw [aliasLoopS_nil,
        addNew_nil_of_nodup (foldl_addNew_nodup z ol cs [] List.nodup_nil)]
      rw [List.append_assoc]
      rfl

theorem selfalias_resolves_nil (z : ZK) (a t : String) (ol : Bool)
    (hat : alookup z.aliases a = some t) (hsplit : commaSplit t = [a]) :
    getHosts z a ol = .ok [] := by
  unfold getHosts
  rw [getHostsS_alias ol [] hat,
    getAliasHostsS_go ol (List.not_mem_nil a) hat, hsplit]
  simp only [List.nil_append]
  rw [aliasLoopS_cons, getHostsS_alias ol [a] hat,
    getAliasHostsS_seen ol (List.mem_singleton_self a)]
  simp only [aliasLoopS_nil]
  rfl

theorem mutualalias_resolves_nil (z : ZK) (a b ta tb : String) (ol : Bool)
    (hab : a ≠ b)
    (hta : alookup z.aliases a = some ta) (hsa : commaSplit ta = [b])
    (htb : alookup z.aliases b = some tb) (hsb : commaSplit tb = [a]) :
    getHosts z a ol = .ok [] := by
  unfold getHosts
  rw [getHostsS_alias ol [] hta,
    getAliasHostsS_go ol (List.not_mem_nil a) hta, hsa]
  simp only [List.nil_append]
  rw [aliasLoopS_cons, getHostsS_alias ol [a] htb,
    getAliasHostsS_go ol
      (show ¬ b ∈ [a] by simp [Ne.symm hab]) htb, hsb]
  rw [aliasLoopS_cons, getHostsS_alias ol ([a] ++ [b]) hta,
    getAliasHostsS_seen ol (show a ∈ [a] ++ [b] by simp)]
  simp only [aliasLoopS_nil]
  rfl

/-- Claim C6: alias resolution always terminates; an acyclic single-target
chain of any depth ending in a comma-separated list of real collections
resolves to the deduplicated concatenation of those collections' active
hosts; a self-referential alias and a mutually-referential alias pair both
resolve to the empty host list without raising. -/
theorem C6_alias_resolution_terminates :
    (∀ (z : ZK) (ol : Bool) (names cs : List String),
      names ≠ [] → names.Nodup → IsAliasChain z names cs →
      (∀ c ∈ cs, alookup z.aliases c = none ∧
        (alookup z.collections c).isSome) →
      getHosts z (names.headD "") ol =
        .ok (cs.foldl (fun h c => addNew h (collHostsOf z c ol)) [])) ∧
      (∀ (z : ZK) (a t : String) (ol : Bool),
        alookup z.aliases a = some t → commaSplit t = [a] →
        getHosts z a ol = .ok []) ∧
      (∀ (z : ZK) (a b ta tb : String) (ol : Bool), a ≠ b →
        alookup z.aliases a = some ta → commaSplit ta = [b] →
        alookup z.aliases b = some tb → commaSplit tb = [a] →
        getHosts z a ol = .ok []) := by
  refine ⟨?_, selfalias_resolves_nil, mutualalias_resolves_nil⟩
  intro z ol names cs hne hnodup hchain hreal
  unfold getHosts
  rw [chain_resolves z ol names cs [] hne hnodup
    (fun a _ => List.not_mem_nil a) hchain hreal]

/-- Second example collection reached through the alias chain. -/
def collB : SolrCollection :=
  ⟨[("sb", ⟨"active", [("rb", ⟨"active", some "true", "http://b"⟩)]⟩)]⟩

/-- Snapshot with the depth-3 alias chain `a1 → a2 → a3 → c1,c2`. -/
def zkChain : ZK :=
  { collections := [("c1", collA), ("c2", collB)],
    aliases := [("a1", "a2"), ("a2", "a3"), ("a3", "c1,c2")] }

/-- Snapshot with the self-referential alias `x → x`. -/
def zkSelf : ZK := { collections := [], aliases := [("x", "x")] }

/-- Snapshot with the mutually-referential aliases `x → y → x`. -/
def zkMut : ZK := { collections := [], aliases := [("x", "y"), ("y", "x")] }

/-- Witness for C6: the depth-3 chain resolves to the union of both target
collections' hosts, and both cyclic snapshots resolve to `[]`. -/
theorem C6_alias_resolution_terminates_witness :
    (IsAliasChain zkChain ["a1", "a2", "a3"] ["c1", "c2"] ∧
      getHosts zkChain "a1" false =
        .ok (["c1", "c2"].foldl
          (fun h c => addNew h (collHostsOf zkChain c false)) []) ∧
      ["c1", "c2"].foldl
          (fun h c => addNew h (collHostsOf zkChain c false)) [] =
        ["http://leader", "http://other", "http://b"]) ∧
      getHosts zkSelf "x" false = .ok [] ∧
      getHosts zkMut "x" false = .ok [] := by
  have hchain : IsAliasChain zkChain ["a1", "a2", "a3"] ["c1", "c2"] :=
    ⟨⟨"a2", rfl, by decide⟩, ⟨"a3", rfl, by decide⟩,
      ⟨"c1,c2", rfl, by decide⟩⟩
  refine ⟨⟨hchain, ?_, by decide⟩, ?_, ?_⟩
  · exact C6_alias_resolution_terminates.1 zkChain false ["a1", "a2", "a3"]
      ["c1", "c2"] (by simp) (by decide) hchain (by decide)
  · exact C6_alias_resolution_terminates.2.1 zkSelf "x" "x" false rfl
      (by decide)
  · exact C6_alias_resolution_terminates.2.2 zkMut "x" "y" "y" "x" false
      (by decide) rfl (by decide) rfl (by decide)
